import Mathlib

/-!
Verification development for the GCalToFMP calendar-to-FileMaker integration.

The JavaScript (Google Apps Script) sources are shallowly embedded:
strings are lists of characters, JavaScript objects iterated with
`for..in` become association lists in insertion order, fallible external
calls (Secret Manager, Sheets, FileMaker) become `Except`-valued
environment parameters, and `try/catch` becomes a `match` on those values.
All numeric work is done over `Rat` (the spec's quantizer contract);
JavaScript `Math.round` is `floor (x + 1/2)`.
-/

/-- Strings are embedded as lists of characters (JS strings are sequences
of UTF-16 units; all the data handled here is plain text). -/
abbrev Str := List Char

/-- JS `String.prototype.toLowerCase` (ASCII-relevant part). -/
def lower (s : Str) : Str := s.map Char.toLower

/-- `needle` is a prefix of `haystack` (used to implement JS `includes`). -/
def isPrefixOfL : Str → Str → Bool
  | [], _ => true
  | _ :: _, [] => false
  | a :: as, b :: bs => a == b && isPrefixOfL as bs

/-- JS `haystack.includes(needle)`: substring containment. -/
def containsSub : Str → Str → Bool
  | [], needle => needle.isEmpty
  | h :: t, needle => isPrefixOfL needle (h :: t) || containsSub t needle

/-- Whitespace for JS `trim` (the characters that occur in this data). -/
def isWs (c : Char) : Bool := c == ' ' || c == '\t' || c == '\n' || c == '\r'

/-- JS `String.prototype.trim`. -/
def trimStr (s : Str) : Str :=
  ((s.dropWhile isWs).reverse.dropWhile isWs).reverse

/-- One step worth of fuel per character: remove every case-insensitive
occurrence of `needle` (JS `s.replace(new RegExp(needle, 'gi'), '')` for a
needle with no regex metacharacters). -/
def stripCIAux (needle : Str) : Nat → Str → Str
  | 0, s => s
  | _ + 1, [] => []
  | fuel + 1, h :: t =>
    if needle ≠ [] && isPrefixOfL (lower needle) (lower (h :: t)) then
      stripCIAux needle fuel (List.drop needle.length (h :: t))
    else
      h :: stripCIAux needle fuel t

/-- Remove every case-insensitive occurrence of `needle` from `s`. -/
def stripCI (needle s : Str) : Str := stripCIAux needle s.length s

/-- The dollar character that starts ECMAScript replacement-string
escapes. -/
def dollarChar : Char := '$'

/-- The backquote character (written by code point to keep it out of the
source text). -/
def backquoteChar : Char := Char.ofNat 96

/-- The apostrophe character (written by code point). -/
def quoteChar : Char := Char.ofNat 39

/-- ECMAScript GetSubstitution for a *string* pattern (no capture
groups): in the replacement string, `$$` yields a dollar, `$&` the
matched substring, dollar-backquote the portion of the subject before the
match, dollar-apostrophe the portion after it; any other dollar sequence
passes through unchanged. -/
def getSubstitution (matched before after : Str) : Str → Str
  | [] => []
  | c :: rest =>
    if c = dollarChar then
      match rest with
      | [] => [c]
      | d :: rest2 =>
        if d = dollarChar then c :: getSubstitution matched before after rest2
        else if d = '&' then matched ++ getSubstitution matched before after rest2
        else if d = backquoteChar then before ++ getSubstitution matched before after rest2
        else if d = quoteChar then after ++ getSubstitution matched before after rest2
        else c :: getSubstitution matched before after (d :: rest2)
    else c :: getSubstitution matched before after rest

/-- Scan of JS `s.replace(pat, repl)` with a *string* pattern: `pre` holds
the (reversed) subject prefix already emitted; at the first occurrence of
`pat` the replacement is spliced in after GetSubstitution expansion. -/
def replaceFirstGo (pat repl : Str) (pre : Str) : Str → Str
  | [] => if pat.isEmpty then getSubstitution pat pre.reverse [] repl else []
  | h :: t =>
    if isPrefixOfL pat (h :: t) then
      getSubstitution pat pre.reverse (List.drop pat.length (h :: t)) repl
        ++ List.drop pat.length (h :: t)
    else h :: replaceFirstGo pat repl (h :: pre) t

/-- JS `s.replace(pat, repl)` with a *string* pattern: only the first
occurrence of `pat` is replaced, with ECMAScript dollar-substitution
applied to the replacement string. -/
def replaceFirst (pat repl s : Str) : Str := replaceFirstGo pat repl [] s

/-- JS `s.split('|')`. -/
def splitPipeAux (cur : Str) : Str → List Str
  | [] => [cur.reverse]
  | c :: t => if c == '|' then cur.reverse :: splitPipeAux [] t else splitPipeAux (c :: cur) t

/-- JS `s.split('|')`. -/
def splitPipe (s : Str) : List Str := splitPipeAux [] s

/-- JS object property read `m[k]` over an insertion-ordered association list. -/
def jsLookup (m : List (Str × Str)) (k : Str) : Option Str :=
  (m.find? (fun p => p.1 == k)).map (·.2)

/-- JS object property write `m[k] = v`: updating an existing key keeps its
position, a new key is appended (insertion order of `for..in`). -/
def jsUpsert (m : List (Str × Str)) (k v : Str) : List (Str × Str) :=
  if m.any (fun p => p.1 == k) then
    m.map (fun p => if p.1 == k then (k, v) else p)
  else m ++ [(k, v)]

-- ─────────────────────────────────────────────────────────────────────────
-- calendarUtils.js: _calculateRoundedDuration
-- ─────────────────────────────────────────────────────────────────────────

/-- JS `Math.round`: floor (x + 1/2), rounding half toward +∞. -/
def jsRound (x : ℚ) : ℤ := ⌊x + 1 / 2⌋

/-- `_calculateRoundedDuration(start, end)` from calendarUtils.js:
`ms = end - start; hours = ms / 1000 / 60 / 60;
return Math.max(0.2, Math.round(hours * 5) / 5)` (times in milliseconds,
numbers as exact rationals). -/
def _calculateRoundedDuration (start e : ℚ) : ℚ :=
  let ms := e - start
  let hours := ms / 1000 / 60 / 60
  max (1 / 5) ((jsRound (hours * 5) : ℚ) / 5)

-- ─────────────────────────────────────────────────────────────────────────
-- errorHandling.js: categorizeError
-- ─────────────────────────────────────────────────────────────────────────

/-- The `category` values assigned by `categorizeError`. -/
inductive ErrCategory where
  | TIMEOUT
  | SECRET_MANAGER_ERROR
  | FILEMAKER_ERROR
  | CALENDAR_ERROR
  | SHEETS_ERROR
  | NETWORK_ERROR
  | PROCESSING_ERROR
deriving DecidableEq, Repr

/-- The `severity` values assigned by `categorizeError`. -/
inductive Severity where
  | HIGH
  | MEDIUM
deriving DecidableEq, Repr

/-- Result relevant fields of `categorizeError`. -/
structure ErrorInfo where
  category : ErrCategory
  severity : Severity
  retryable : Bool
deriving DecidableEq, Repr

/-- `categorizeError(error)` from errorHandling.js: the message-substring
cascade that assigns category, severity and the retryable flag. -/
def categorizeError (msg : Str) : ErrorInfo :=
  if containsSub msg ("timeout".toList) || containsSub msg ("execution time".toList) then
    ⟨.TIMEOUT, .HIGH, false⟩
  else if containsSub msg ("Secret Manager".toList) || containsSub msg ("OAuth".toList) then
    ⟨.SECRET_MANAGER_ERROR, .HIGH, true⟩
  else if containsSub msg ("FileMaker".toList) || containsSub msg ("authentication".toList) then
    ⟨.FILEMAKER_ERROR, .HIGH, true⟩
  else if containsSub msg ("Calendar".toList) || containsSub msg ("getEvents".toList) then
    ⟨.CALENDAR_ERROR, .HIGH, true⟩
  else if containsSub msg ("Sheets".toList) || containsSub msg ("Spreadsheet".toList) then
    ⟨.SHEETS_ERROR, .HIGH, true⟩
  else if containsSub msg ("network".toList) || containsSub msg ("fetch".toList) then
    ⟨.NETWORK_ERROR, .MEDIUM, true⟩
  else
    ⟨.PROCESSING_ERROR, .MEDIUM, false⟩

-- ─────────────────────────────────────────────────────────────────────────
-- clientMap.js: matchClientFromTitle
-- ─────────────────────────────────────────────────────────────────────────

/-- The JS object handed around as a client match.  JS is duck typed: the
object built by `matchClientFromTitle` carries `name`/`uid`, while
`generateUnifiedSummary`'s JSDoc documents `firstName`/`lastName`/`uid`/
`matchedName`.  Absent properties read as `undefined`, embedded as `none`. -/
structure ClientMatch where
  name : Option Str := none
  uid : Option Str := none
  firstName : Option Str := none
  lastName : Option Str := none
  matchedName : Option Str := none
deriving DecidableEq, Repr

/-- Loop body of `matchClientFromTitle`: `for (const name in clientMap)
{ if (lowerTitle.includes(name)) return {name, uid}; } return null`. -/
def matchClientLoop (lowerTitle : Str) : List (Str × Str) → Option ClientMatch
  | [] => none
  | (nm, uid) :: rest =>
    if containsSub lowerTitle nm then some { name := some nm, uid := some uid }
    else matchClientLoop lowerTitle rest

/-- `matchClientFromTitle(title, clientMap)` from clientMap.js: lowercases
the title and returns the FIRST key (in object iteration order) contained
in it, as `{name, uid}`. -/
def matchClientFromTitle (title : Str) (clientMap : List (Str × Str)) : Option ClientMatch :=
  matchClientLoop (lower title) clientMap

-- ─────────────────────────────────────────────────────────────────────────
-- filemakerSync.js: unified event vocabulary and matching
-- ─────────────────────────────────────────────────────────────────────────

/-- One entry of the unified event vocabulary
(`{ category, keywords, description, isCourtEvent }`). -/
structure EventVocab where
  category : Str
  keywords : List Str
  description : Str
  isCourtEvent : Bool
deriving DecidableEq, Repr

/-- `getUnifiedEventFallback()` from filemakerSync.js: the hard-coded
vocabulary used when the sheet cannot be loaded. -/
def getUnifiedEventFallback : List EventVocab :=
  [ ⟨"Telephone Conference".toList,
      ["telephone call".toList, "tc".toList, "cc".toList, "conference call".toList, "call".toList],
      "Telephone conference with \x7bClient First Name\x7d \x7bClient Last Name\x7d".toList, false⟩
  , ⟨"Zoom Conference".toList,
      ["zoom conference".toList, "zoom".toList, "zc".toList, "zoom video conference".toList,
       "video conference".toList, "video".toList],
      "Video conference with \x7bClient First Name\x7d \x7bClient Last Name\x7d".toList, false⟩
  , ⟨"Office Meeting".toList,
      ["office meeting".toList, "office".toList, "meeting".toList, "om".toList],
      "Office meeting with \x7bClient First Name\x7d \x7bClient Last Name\x7d".toList, false⟩
  , ⟨"Court".toList, ["motion".toList],
      "Appeared before Judge \x7bJudge Last Name\x7d on initial presentation of Motion".toList, true⟩
  , ⟨"Court".toList, ["hearing".toList],
      "Appeared before Judge \x7bJudge Last Name\x7d for hearing on Motion".toList, true⟩
  , ⟨"Court".toList, ["open".toList],
      "Appeared before Judge \x7bJudge Last Name\x7d to open Estate, have heirship determined, and have representative appointed".toList, true⟩
  , ⟨"Court".toList, ["close".toList],
      "Appeared before Judge \x7bJudge Last Name\x7d to present Final Report and Receipts and Approvals from interested parties and to request that the representative be discharged and estate closed.".toList, true⟩
  , ⟨"Court".toList, ["status".toList],
      "Appeared before Judge \x7bJudge Last Name\x7d to report on status of Estate Administration".toList, true⟩
  ]

/-- One data row of the unified events sheet (`[category, keywords,
description]` by destructuring). -/
structure VocabRow where
  category : Str
  keywords : Str
  description : Str
deriving DecidableEq, Repr

/-- `loadUnifiedEventVocabulary()` from filemakerSync.js.  The sheet access
is the `Except`-valued argument (rows past the header row); any fault is
caught and the hard-coded fallback vocabulary is returned.  A data row is
kept only when all three cells are truthy (non-empty); `keywords` is split
on a pipe character, trimmed and lowercased; `isCourtEvent` compares the raw
(untrimmed) category, lowercased, against the word court. -/
def loadUnifiedEventVocabulary (src : Except Str (List VocabRow)) : List EventVocab :=
  match src with
  | .error _ => getUnifiedEventFallback
  | .ok rows =>
    rows.filterMap (fun r =>
      if r.category ≠ [] && r.keywords ≠ [] && r.description ≠ [] then
        some ⟨trimStr r.category,
              (splitPipe r.keywords).map (fun k => lower (trimStr k)),
              trimStr r.description,
              lower r.category == "court".toList⟩
      else none)

/-- All `{...event, matchedKeyword}` objects pushed by the nested loops of
`findUnifiedEventMatch`, in push order. -/
def allKeywordMatches (loweredTitle : Str) : List EventVocab → List (EventVocab × Str)
  | [] => []
  | e :: rest =>
    (e.keywords.filter (fun k => containsSub loweredTitle k)).map (fun k => (e, k))
      ++ allKeywordMatches loweredTitle rest

/-- Head of the stable sort by descending `keywordLength`: the first pushed
match among those of maximal keyword length. -/
def pickBest (b : EventVocab × Str) : List (EventVocab × Str) → EventVocab × Str
  | [] => b
  | x :: xs => pickBest (if x.2.length > b.2.length then x else b) xs

/-- `matches.sort((a, b) => b.keywordLength - a.keywordLength)[0]`
(JS sort is stable, so this is the earliest maximal-length match). -/
def pickLongest : List (EventVocab × Str) → Option (EventVocab × Str)
  | [] => none
  | m :: ms => some (pickBest m ms)

/-- `findUnifiedEventMatch(title, events)` from filemakerSync.js: collect
every `(event, keyword)` pair whose keyword occurs in the lowercased title,
then return the one with the longest keyword (null when none match). -/
def findUnifiedEventMatch (title : Str) (events : List EventVocab) :
    Option (EventVocab × Str) :=
  pickLongest (allKeywordMatches (lower title) events)

-- ─────────────────────────────────────────────────────────────────────────
-- filemakerSync.js: Cook County courtroom detection
-- ─────────────────────────────────────────────────────────────────────────

/-- Regex word character (`\w`), for the `\b` boundaries in
`/\b(\d{4})\b/`. -/
def isWordChar (c : Char) : Bool := c.isAlphanum || c == '_'

/-- Four digits at the head of `s`, with a word boundary after them. -/
def startsWith4Digits : Str → Option Str
  | c1 :: c2 :: c3 :: c4 :: rest =>
    if c1.isDigit && c2.isDigit && c3.isDigit && c4.isDigit
        && (match rest with | [] => true | r :: _ => !isWordChar r) then
      some [c1, c2, c3, c4]
    else none
  | _ => none

/-- Scan for `/\b(\d{4})\b/`: `prev` is the character before the current
position (none at the start of the string). -/
def find4DigitAux : Option Char → Str → Option Str
  | _, [] => none
  | prev, c :: t =>
    if (match prev with | none => true | some p => !isWordChar p) then
      match startsWith4Digits (c :: t) with
      | some d => some d
      | none => find4DigitAux (some c) t
    else find4DigitAux (some c) t

/-- `title.match(/\b(\d{4})\b/)`: the first standalone 4-digit run. -/
def findCourtroomNumber (title : Str) : Option Str := find4DigitAux none title

/-- Result of `detectCookCountyCourtroom`. -/
structure CourtroomInfo where
  courtroom : Str
  judge : Str
deriving DecidableEq, Repr

/-- `detectCookCountyCourtroom(title)` from filemakerSync.js.  `judgeMap`
is the (already loaded) courtroom-to-judge table; a missing courtroom code
yields the four-underscore unresolved marker, never an error.  The stored
judge name has its `Judge ` prefix removed (string replace: first
occurrence). -/
def detectCookCountyCourtroom (judgeMap : List (Str × Str)) (title : Str) :
    Option CourtroomInfo :=
  match findCourtroomNumber title with
  | none => none
  | some num =>
    match jsLookup judgeMap num with
    | some judgeName => some ⟨num, replaceFirst ("Judge ".toList) [] judgeName⟩
    | none => some ⟨num, "____".toList⟩

-- ─────────────────────────────────────────────────────────────────────────
-- filemakerSync.js: generateUnifiedBillingDescription
-- ─────────────────────────────────────────────────────────────────────────

/-- JS template interpolation of a possibly-undefined value:
`undefined` renders as the text undefined. -/
def jsStr : Option Str → Str
  | some s => s
  | none => "undefined".toList

/-- JS `a || b` on possibly-undefined strings (empty string is falsy). -/
def jsOrOpt (a b : Option Str) : Option Str :=
  match a with
  | some s => if s.isEmpty then b else some s
  | none => b

/-- `generateUnifiedBillingDescription(eventMatch, clientMatch, title)` from
filemakerSync.js.  Placeholder substitution uses JS string `replace` with a
string pattern, so only the FIRST occurrence of each placeholder is
replaced; the judge placeholder is only handled for court events. -/
def generateUnifiedBillingDescription (judgeMap : List (Str × Str))
    (eventMatch : EventVocab) (clientMatch : Option ClientMatch) (title : Str) : Str :=
  let d0 := eventMatch.description
  let d1 :=
    match clientMatch with
    | some m =>
      replaceFirst ("\x7bClient Last Name\x7d".toList) (m.lastName.getD [])
        (replaceFirst ("\x7bClient First Name\x7d".toList)
          (jsStr (jsOrOpt m.firstName m.matchedName)) d0)
    | none =>
      replaceFirst ("\x7bClient Last Name\x7d".toList) []
        (replaceFirst ("\x7bClient First Name\x7d".toList) ("[Client]".toList) d0)
  if eventMatch.isCourtEvent then
    let judgeText :=
      match detectCookCountyCourtroom judgeMap title with
      | some info => info.judge
      | none => "____".toList
    replaceFirst ("\x7bJudge Last Name\x7d".toList) judgeText d1
  else d1

-- ─────────────────────────────────────────────────────────────────────────
-- unifiedSummaryGenerator.js: generateUnifiedSummary
-- ─────────────────────────────────────────────────────────────────────────

/-- The fallback string of `generateUnifiedSummary` (used both when no
event matches and in the catch-all): for a client match,
`Meeting with $\x7bclientMatch.firstName || clientMatch.matchedName\x7d
$\x7bclientMatch.lastName || ''\x7d`; otherwise the original title. -/
def fallbackSummary (title : Str) : Option ClientMatch → Str
  | some m =>
    "Meeting with ".toList ++ jsStr (jsOrOpt m.firstName m.matchedName)
      ++ [' '] ++ m.lastName.getD []
  | none => title

/-- `clientMatch && clientMatch.matchedName` (JS truthiness of the
matched-name property). -/
def truthyMatchedName : Option ClientMatch → Bool
  | some m => match m.matchedName with | some s => !s.isEmpty | none => false
  | none => false

/-- Environment of one `generateUnifiedSummary` call.  `vocabSrc` is the
sheet access behind `loadUnifiedEventVocabulary`; `judgeMap` is the loaded
courtroom table used by `detectCookCountyCourtroom`; `stripFault` models
the one fallible statement of the try block itself (the
`new RegExp(matchedName, 'gi')` construction, which throws on a
matched name that is not a valid regex). -/
structure SummaryEnv where
  vocabSrc : Except Str (List VocabRow)
  judgeMap : List (Str × Str)
  stripFault : Bool
deriving Repr

/-- The try block of `generateUnifiedSummary(title, clientMatch)`:
strip the matched client name from the title, load the vocabulary, find
the event match, and either render the template or fall back. -/
def generateUnifiedSummaryTry (env : SummaryEnv) (title : Str)
    (clientMatch : Option ClientMatch) : Except Unit Str :=
  if truthyMatchedName clientMatch && env.stripFault then .error ()
  else
    let cleanTitle :=
      match clientMatch with
      | some m =>
        match m.matchedName with
        | some mn => if mn.isEmpty then title else trimStr (stripCI mn title)
        | none => title
      | none => title
    let unifiedEvents := loadUnifiedEventVocabulary env.vocabSrc
    match findUnifiedEventMatch cleanTitle unifiedEvents with
    | none => .ok (fallbackSummary title clientMatch)
    | some (e, _) =>
      .ok (generateUnifiedBillingDescription env.judgeMap e clientMatch title)

/-- `generateUnifiedSummary(title, clientMatch)` from
unifiedSummaryGenerator.js: the try block with its catch-all returning the
safe fallback string. -/
def generateUnifiedSummary (env : SummaryEnv) (title : Str)
    (clientMatch : Option ClientMatch) : Str :=
  match generateUnifiedSummaryTry env title clientMatch with
  | .ok s => s
  | .error _ => fallbackSummary title clientMatch

-- ─────────────────────────────────────────────────────────────────────────
-- errorHandling.js: processWithGracefulDegradation
-- ─────────────────────────────────────────────────────────────────────────

/-- What one `processor(items[i], i)` call does in JS: return a non-null
value, return null, or throw an error carrying a message. -/
inductive ProcOutcome where
  | value
  | nullResult
  | throwErr (msg : Str)
deriving DecidableEq, Repr

/-- The `options` argument (`maxFailures`, `stopOnExcessiveFailures`). -/
structure GDOptions where
  maxFailures : Option Nat := none
  stopOnExcessiveFailures : Bool := true
deriving DecidableEq, Repr

/-- Status recorded for one item in `results.results`. -/
inductive ItemStatus where
  | success
  | skipped
  | failed
deriving DecidableEq, Repr

/-- The aggregate result object of `processWithGracefulDegradation`. -/
structure GDResults where
  total : Nat
  successful : Nat
  failed : Nat
  skipped : Nat
  errors : Nat
  results : List (Nat × ItemStatus)
deriving DecidableEq, Repr

/-- `options.maxFailures || Math.ceil(items.length * 0.5)` (note JS `||`:
an explicit 0 is falsy and falls back to the ceiling). -/
def effectiveMaxFailures (o : GDOptions) (n : Nat) : Nat :=
  match o.maxFailures with
  | some m => if m = 0 then (n + 1) / 2 else m
  | none => (n + 1) / 2

/-- The sentinel message marking deliberately filtered events. -/
def filteredOutMarker : Str := "Event filtered out".toList

/-- The `for` loop of `processWithGracefulDegradation`: null results and
filtered-out throws count as skipped, other throws as failed; once
`failed > maxFailures` (with stop enabled) the remaining items are
abandoned. -/
def gdLoop {α : Type} (processor : Nat → α → ProcOutcome) (maxFailures : Nat)
    (stopEx : Bool) : List α → Nat → GDResults → GDResults
  | [], _, acc => acc
  | item :: rest, i, acc =>
    match processor i item with
    | .value =>
      gdLoop processor maxFailures stopEx rest (i + 1)
        { acc with successful := acc.successful + 1,
                   results := acc.results ++ [(i, .success)] }
    | .nullResult =>
      gdLoop processor maxFailures stopEx rest (i + 1)
        { acc with skipped := acc.skipped + 1,
                   results := acc.results ++ [(i, .skipped)] }
    | .throwErr msg =>
      if containsSub msg filteredOutMarker then
        gdLoop processor maxFailures stopEx rest (i + 1)
          { acc with skipped := acc.skipped + 1,
                     results := acc.results ++ [(i, .skipped)] }
      else
        let acc' := { acc with failed := acc.failed + 1,
                               errors := acc.errors + 1,
                               results := acc.results ++ [(i, .failed)] }
        if stopEx && acc'.failed > maxFailures then acc'
        else gdLoop processor maxFailures stopEx rest (i + 1) acc'

/-- `processWithGracefulDegradation(items, processor, options)` from
errorHandling.js. -/
def processWithGracefulDegradation {α : Type} (items : List α)
    (processor : Nat → α → ProcOutcome) (o : GDOptions) : GDResults :=
  gdLoop processor (effectiveMaxFailures o items.length) o.stopOnExcessiveFailures
    items 0 ⟨items.length, 0, 0, 0, 0, []⟩

-- ─────────────────────────────────────────────────────────────────────────
-- smartClientSync.js: the once-per-day refresh guard
-- ─────────────────────────────────────────────────────────────────────────

/-- A calendar date as compared by `isClientDataFreshToday`
(`getFullYear`/`getMonth`/`getDate`). -/
structure CalDate where
  year : Int
  month : Int
  day : Int
deriving DecidableEq, Repr

/-- Where a fault strikes inside `syncClientsToUIDSheetWithTimestamp`
(smartClientSync.js STEP 1-3): before the sheet is touched (secret fetch,
FileMaker token/query, the non-200 check), after `clearContents()` but
before the A1 timestamp write, or in the writes after the A1 timestamp
write (B1, the header row, the per-client rows). -/
inductive RefreshFault where
  | beforeWrites
  | afterClear
  | afterTimestampWrite
deriving DecidableEq, Repr

/-- The guard's environment: whether the timestamp read faults
(Secret Manager / sheet access in `getLastSyncTimestamp`), where (if
anywhere) the refresh faults, the client count the refresh would report,
and the caller's current date. -/
structure GuardEnv where
  readFault : Bool
  refreshFault : Option RefreshFault
  clientCount : Nat
  today : CalDate
deriving DecidableEq, Repr

/-- `getLastSyncTimestamp()` from smartClientSync.js: reads the stored
timestamp; any fault is caught and null is returned. -/
def getLastSyncTimestamp (env : GuardEnv) (stored : Option CalDate) : Option CalDate :=
  if env.readFault then none else stored

/-- `isClientDataFreshToday()` from smartClientSync.js: true iff the stored
timestamp exists and has today's year, month and day (a fault in the check
is caught and treated as not fresh). -/
def isClientDataFreshToday (env : GuardEnv) (stored : Option CalDate) : Bool :=
  match getLastSyncTimestamp env stored with
  | none => false
  | some d => d == env.today

/-- `syncClientsToUIDSheetWithTimestamp()` from smartClientSync.js: on
success it rewrites the sheet, storing the current date as the new
timestamp, and reports the client count; a fault is rethrown, and the
error carries the state the stored timestamp was left in at the throw —
unchanged for a fault before the sheet writes, erased for a fault between
`clearContents()` and the A1 write, today's date for a fault in the
writes after A1. -/
def syncClientsToUIDSheetWithTimestamp (env : GuardEnv) (stored : Option CalDate) :
    Except (Option CalDate) (Nat × Option CalDate) :=
  match env.refreshFault with
  | some .beforeWrites => .error stored
  | some .afterClear => .error none
  | some .afterTimestampWrite => .error (some env.today)
  | none => .ok (env.clientCount, some env.today)

/-- Status values returned by `smartSyncClientsToUIDSheet`. -/
inductive SyncStatus where
  | SKIPPED
  | SUCCESS
  | ERROR
deriving DecidableEq, Repr

/-- Observable outcome of one `smartSyncClientsToUIDSheet()` run: the
returned status, the stored timestamp afterwards, and how many times the
refresh operation was invoked. -/
structure GuardOutcome where
  status : SyncStatus
  finalTs : Option CalDate
  refreshInvocations : Nat
deriving DecidableEq, Repr

/-- `smartSyncClientsToUIDSheet()` from smartClientSync.js: skip when
fresh, otherwise run the refresh once, returning ERROR (with the stored
timestamp in whatever state the refresh left it) when it throws. -/
def smartSyncClientsToUIDSheet (env : GuardEnv) (stored : Option CalDate) :
    GuardOutcome :=
  if isClientDataFreshToday env stored then ⟨.SKIPPED, stored, 0⟩
  else
    match syncClientsToUIDSheetWithTimestamp env stored with
    | .ok (_, ts) => ⟨.SUCCESS, ts, 1⟩
    | .error ts => ⟨.ERROR, ts, 1⟩

-- ─────────────────────────────────────────────────────────────────────────
-- clientMap.js / judgeLoader.js: reference-table loaders
-- ─────────────────────────────────────────────────────────────────────────

/-- A spreadsheet row: cells as strings (absent and empty cells are both
falsy in the JS checks). -/
abbrev SheetRow := List Str

/-- `row[j]` (undefined past the end, which compares and tests like an
empty cell here). -/
def cellAt (r : SheetRow) (j : Nat) : Str := r.getD j []

/-- Header detection of `loadClientMappingFromSheetSmart` (clientMap.js):
the first of the first five rows whose first three cells are exactly
`First Name`, `Last Name`, `UID_Client_PK`. -/
def findHeaderRow (rows : List SheetRow) : Option Nat :=
  (List.range (min 5 rows.length)).find? (fun i =>
    let r := rows.getD i []
    decide (r.length ≥ 3) && r.getD 0 [] == "First Name".toList
      && r.getD 1 [] == "Last Name".toList
      && r.getD 2 [] == "UID_Client_PK".toList)

/-- The data-collection loop shared by the client loaders: for each row,
if last name and uid are truthy, `clientMap[lastName.toLowerCase().trim()]
= uid`. -/
def collectClients (rows : List SheetRow) (startRow : Nat) : List (Str × Str) :=
  (rows.drop startRow).foldl
    (fun m r =>
      let lastName := cellAt r 1
      let uid := cellAt r 2
      if lastName ≠ [] && uid ≠ [] then jsUpsert m (trimStr (lower lastName)) uid
      else m)
    []

/-- `loadClientMappingFromSheetSmart()` from clientMap.js.  The secret
fetch, token and spreadsheet access are the `Except`-valued argument; ANY
fault is caught and an empty map is returned.  On success: empty-ish
sheets yield an empty map, a detected header row starts the data below it,
and without a header row the legacy format (data from row 1) is assumed. -/
def loadClientMappingFromSheetSmart (src : Except Str (List SheetRow)) :
    List (Str × Str) :=
  match src with
  | .error _ => []
  | .ok rows =>
    if rows.length < 2 then []
    else
      let startRow := match findHeaderRow rows with
        | some i => i + 1
        | none => 1
      collectClients rows startRow

/-- `loadJudgeMapFromSheet()` from judgeLoader.js: rows below the header
with truthy first/last/courtroom cells yield
`map[courtroom] = Judge <last>`; ANY fault is caught and an empty map is
returned. -/
def loadJudgeMapFromSheet (src : Except Str (List SheetRow)) : List (Str × Str) :=
  match src with
  | .error _ => []
  | .ok rows =>
    (rows.drop 1).foldl
      (fun m r =>
        let first := cellAt r 0
        let last := cellAt r 1
        let courtroom := cellAt r 2
        if courtroom ≠ [] && first ≠ [] && last ≠ [] then
          jsUpsert m courtroom ("Judge ".toList ++ last)
        else m)
      []

-- ─────────────────────────────────────────────────────────────────────────
-- Named subterms of generateUnifiedBillingDescription (for the theorems)
-- ─────────────────────────────────────────────────────────────────────────

/-- The replacement text for the client-first-name placeholder: the
person's first name, falling back to the matched name, rendering as the
text undefined when both are absent; the bracketed generic marker when no
person matched. -/
def r1Of : Option ClientMatch → Str
  | some m => jsStr (jsOrOpt m.firstName m.matchedName)
  | none => "[Client]".toList

/-- The replacement text for the client-last-name placeholder. -/
def r2Of : Option ClientMatch → Str
  | some m => m.lastName.getD []
  | none => []

/-- The replacement text for the judge placeholder of a court event. -/
def judgeTextOf (jm : List (Str × Str)) (title : Str) : Str :=
  match detectCookCountyCourtroom jm title with
  | some info => info.judge
  | none => "____".toList

/-- The opening-brace character that starts every placeholder token. -/
def braceChar : Char := '\x7b'

/-- The name fields of a (possible) client match avoid the character
`ch` (instantiated at the opening brace that starts every placeholder
token, and at the dollar character that starts every ECMAScript
replacement escape). -/
def cmFieldsAvoid (ch : Char) : Option ClientMatch → Prop
  | none => True
  | some m =>
    (∀ s, m.firstName = some s → ch ∉ s)
    ∧ (∀ s, m.lastName = some s → ch ∉ s)
    ∧ (∀ s, m.matchedName = some s → ch ∉ s)

-- ─────────────────────────────────────────────────────────────────────────
-- Theorems
-- ─────────────────────────────────────────────────────────────────────────

theorem max_cast_div_five (j : ℤ) :
    max (1/5 : ℚ) ((j : ℚ) / 5) = ((max 1 j : ℤ) : ℚ) / 5 := by
  rcases le_total j 1 with h | h
  · rw [max_eq_left (by
      have hq : (j : ℚ) ≤ 1 := by exact_mod_cast h
      linarith : (j : ℚ) / 5 ≤ 1/5), max_eq_left h]
    norm_num
  · rw [max_eq_right (by
      have hq : (1 : ℚ) ≤ (j : ℚ) := by exact_mod_cast h
      linarith : (1 : ℚ) / 5 ≤ (j : ℚ) / 5), max_eq_right h]

/-- C3: for every start and end with end ≥ start, `_calculateRoundedDuration`
equals max(0.2, round(hours / 0.2) · 0.2) where hours = (end − start) in
hours; the result is a multiple of 0.2 and at least 0.2; and the quoted
examples hold: 5 min → 0.2, 12 min → 0.2, 18 min → 0.4, 30 min → 0.6,
36 min → 0.6, 60 min → 1.0 (times in milliseconds, values as exact
rationals). -/
theorem c3_duration_quantizer (s e : ℚ) (h : s ≤ e) :
    _calculateRoundedDuration s e
      = max (1/5) ((jsRound ((e - s) / 3600000 / (1/5)) : ℚ) * (1/5))
    ∧ (∃ k : ℤ, _calculateRoundedDuration s e = (k : ℚ) * (1/5))
    ∧ 1/5 ≤ _calculateRoundedDuration s e
    ∧ _calculateRoundedDuration 0 300000 = 1/5
    ∧ _calculateRoundedDuration 0 720000 = 1/5
    ∧ _calculateRoundedDuration 0 1080000 = 2/5
    ∧ _calculateRoundedDuration 0 1800000 = 3/5
    ∧ _calculateRoundedDuration 0 2160000 = 3/5
    ∧ _calculateRoundedDuration 0 3600000 = 1 := by
  have harg : (e - s) / 1000 / 60 / 60 * 5 = (e - s) / 3600000 / (1/5) := by
    rw [div_div, div_div, div_div_eq_mul_div, div_one]
    norm_num
  refine ⟨?_, ?_, ?_, ?_, ?_, ?_, ?_, ?_, ?_⟩
  · show max (1/5) ((jsRound ((e - s) / 1000 / 60 / 60 * 5) : ℚ) / 5) = _
    rw [harg, mul_one_div]
  · refine ⟨max 1 (jsRound ((e - s) / 1000 / 60 / 60 * 5)), ?_⟩
    show max (1/5) ((jsRound ((e - s) / 1000 / 60 / 60 * 5) : ℚ) / 5) = _
    rw [mul_one_div, ← max_cast_div_five]
  · exact le_max_left _ _
  · norm_num [_calculateRoundedDuration, jsRound]
  · norm_num [_calculateRoundedDuration, jsRound]
  · norm_num [_calculateRoundedDuration, jsRound]
  · norm_num [_calculateRoundedDuration, jsRound]
  · norm_num [_calculateRoundedDuration, jsRound]
  · norm_num [_calculateRoundedDuration, jsRound]

/-- Witness for C3 at the concrete input start = 0 ms, end = 300000 ms
(a 5-minute event): the hypothesis 0 ≤ 300000 is discharged and the
quantizer floors the duration to 0.2 hours. -/
theorem c3_witness :
    (0 : ℚ) ≤ 300000 ∧ _calculateRoundedDuration 0 300000 = 1/5 :=
  ⟨by norm_num, (c3_duration_quantizer 0 300000 (by norm_num)).2.2.2.1⟩

/-- C8 counterexample: the error message `network down` is classified as
NETWORK_ERROR with severity MEDIUM (retryable), so the claim that every
named external-dependency category — including network — gets HIGH
severity is false on the code. -/
theorem c8_counterexample :
    categorizeError ("network down".toList)
      = ⟨.NETWORK_ERROR, .MEDIUM, true⟩
    ∧ (categorizeError ("network down".toList)).severity ≠ .HIGH := by
  refine ⟨by decide, by decide⟩

/-- C8 amended: `categorizeError` marks the five named external-dependency
categories retryable and timeout/unclassified not retryable; severity is
HIGH for the secret-manager, FileMaker, calendar and sheets categories and
for timeouts, but MEDIUM — not HIGH — for the network category, and MEDIUM
for unclassified errors. -/
theorem c8_classifier_amended (msg : Str) :
    ((categorizeError msg).category = .SECRET_MANAGER_ERROR →
      (categorizeError msg).severity = .HIGH ∧ (categorizeError msg).retryable = true)
    ∧ ((categorizeError msg).category = .FILEMAKER_ERROR →
      (categorizeError msg).severity = .HIGH ∧ (categorizeError msg).retryable = true)
    ∧ ((categorizeError msg).category = .CALENDAR_ERROR →
      (categorizeError msg).severity = .HIGH ∧ (categorizeError msg).retryable = true)
    ∧ ((categorizeError msg).category = .SHEETS_ERROR →
      (categorizeError msg).severity = .HIGH ∧ (categorizeError msg).retryable = true)
    ∧ ((categorizeError msg).category = .NETWORK_ERROR →
      (categorizeError msg).severity = .MEDIUM ∧ (categorizeError msg).retryable = true)
    ∧ ((categorizeError msg).category = .TIMEOUT →
      (categorizeError msg).severity = .HIGH ∧ (categorizeError msg).retryable = false)
    ∧ ((categorizeError msg).category = .PROCESSING_ERROR →
      (categorizeError msg).severity = .MEDIUM ∧ (categorizeError msg).retryable = false) := by
  unfold categorizeError
  split_ifs <;> simp

/-- Witness for C8 at the concrete message `network down`: its category is
NETWORK_ERROR, and the amended theorem then yields severity MEDIUM and
retryable true there. -/
theorem c8_witness :
    (categorizeError ("network down".toList)).severity = .MEDIUM
    ∧ (categorizeError ("network down".toList)).retryable = true :=
  (c8_classifier_amended ("network down".toList)).2.2.2.2.1 (by decide)

/-- C4: with a fault-free timestamp read, a stored timestamp of today's
calendar date makes the guard return SKIPPED without invoking the refresh,
while a null or different-date stored timestamp makes it invoke the
refresh exactly once and (when the refresh succeeds) return the SUCCESS
status with today's date stored. -/
theorem c4_daily_refresh_guard (env : GuardEnv) (stored : Option CalDate)
    (hread : env.readFault = false) :
    (stored = some env.today →
       smartSyncClientsToUIDSheet env stored = ⟨.SKIPPED, stored, 0⟩)
    ∧ ((stored = none ∨ ∃ d, stored = some d ∧ d ≠ env.today) →
       env.refreshFault = none →
       smartSyncClientsToUIDSheet env stored = ⟨.SUCCESS, some env.today, 1⟩) := by
  constructor
  · intro hst
    subst hst
    simp [smartSyncClientsToUIDSheet, isClientDataFreshToday, getLastSyncTimestamp, hread]
  · rintro (hst | ⟨d, hst, hne⟩) hrf
    · subst hst
      simp [smartSyncClientsToUIDSheet, isClientDataFreshToday, getLastSyncTimestamp,
        hread, hrf, syncClientsToUIDSheetWithTimestamp]
    · subst hst
      simp [smartSyncClientsToUIDSheet, isClientDataFreshToday, getLastSyncTimestamp,
        hread, hrf, syncClientsToUIDSheetWithTimestamp, hne]

/-- Witness for C4 on 2026-10-11 with a fault-free environment: a stored
timestamp of the same date yields SKIPPED with zero refresh invocations,
and a null stored timestamp yields SUCCESS with one invocation. -/
theorem c4_witness :
    smartSyncClientsToUIDSheet ⟨false, none, 3, ⟨2026, 10, 11⟩⟩ (some ⟨2026, 10, 11⟩)
      = ⟨.SKIPPED, some ⟨2026, 10, 11⟩, 0⟩
    ∧ smartSyncClientsToUIDSheet ⟨false, none, 3, ⟨2026, 10, 11⟩⟩ none
      = ⟨.SUCCESS, some ⟨2026, 10, 11⟩, 1⟩ :=
  ⟨(c4_daily_refresh_guard ⟨false, none, 3, ⟨2026, 10, 11⟩⟩ (some ⟨2026, 10, 11⟩) rfl).1 rfl,
   (c4_daily_refresh_guard ⟨false, none, 3, ⟨2026, 10, 11⟩⟩ none rfl).2 (Or.inl rfl) rfl⟩

/-- C5 counterexample: with a stored timestamp of today but a fault while
reading it, the guard does NOT return ERROR — the read fault is swallowed,
the refresh operation is invoked (once), and the run reports SUCCESS. -/
theorem c5_counterexample :
    smartSyncClientsToUIDSheet ⟨true, none, 3, ⟨2026, 1, 1⟩⟩ (some ⟨2026, 1, 1⟩)
      = ⟨.SUCCESS, some ⟨2026, 1, 1⟩, 1⟩
    ∧ SyncStatus.SUCCESS ≠ SyncStatus.ERROR
    ∧ (smartSyncClientsToUIDSheet ⟨true, none, 3, ⟨2026, 1, 1⟩⟩
        (some ⟨2026, 1, 1⟩)).refreshInvocations ≠ 0 := by
  refine ⟨by decide, by decide, by decide⟩

/-- C5 amended: a fault while INVOKING the refresh operation (on a stale
or unreadable timestamp) makes the guard return ERROR, with the stored
timestamp in whatever state the refresh left it — unchanged for a fault
before the sheet writes, erased for a fault between the clear and the A1
timestamp write, today's date for a fault in the writes after A1; a fault
while READING the stored timestamp is caught and treated as not fresh, so
the refresh operation is invoked (once) rather than the guard returning
ERROR. -/
theorem c5_guard_faults_amended (env : GuardEnv) (stored : Option CalDate) :
    (∀ f, env.refreshFault = some f →
       isClientDataFreshToday env stored = false →
       smartSyncClientsToUIDSheet env stored
         = ⟨.ERROR,
            match f with
            | .beforeWrites => stored
            | .afterClear => none
            | .afterTimestampWrite => some env.today,
            1⟩)
    ∧ (env.readFault = true →
       isClientDataFreshToday env stored = false
       ∧ (smartSyncClientsToUIDSheet env stored).refreshInvocations = 1) := by
  constructor
  · intro f hf hfresh
    cases f <;>
      simp [smartSyncClientsToUIDSheet, hfresh, syncClientsToUIDSheetWithTimestamp, hf]
  · intro hrd
    have hfresh : isClientDataFreshToday env stored = false := by
      simp [isClientDataFreshToday, getLastSyncTimestamp, hrd]
    refine ⟨hfresh, ?_⟩
    rcases hrf : env.refreshFault with _ | f
    · simp [smartSyncClientsToUIDSheet, hfresh, syncClientsToUIDSheetWithTimestamp, hrf]
    · cases f <;>
        simp [smartSyncClientsToUIDSheet, hfresh, syncClientsToUIDSheetWithTimestamp, hrf]

/-- Witness for C5 with a read fault and a refresh fault in the writes
after the A1 timestamp write: freshness reads false, the refresh is
invoked once, and the guard returns ERROR with the stored timestamp
already rewritten to today's date. -/
theorem c5_witness :
    isClientDataFreshToday ⟨true, some .afterTimestampWrite, 0, ⟨2026, 1, 1⟩⟩
        (some ⟨2025, 12, 31⟩) = false
    ∧ smartSyncClientsToUIDSheet ⟨true, some .afterTimestampWrite, 0, ⟨2026, 1, 1⟩⟩
        (some ⟨2025, 12, 31⟩)
      = ⟨.ERROR, some ⟨2026, 1, 1⟩, 1⟩ := by
  have h := c5_guard_faults_amended ⟨true, some .afterTimestampWrite, 0, ⟨2026, 1, 1⟩⟩
    (some ⟨2025, 12, 31⟩)
  exact ⟨(h.2 rfl).1, h.1 .afterTimestampWrite rfl (h.2 rfl).1⟩

/-- C9: the client-map and judge-map loaders catch every fault and return
an empty table instead of raising; person matching against the resulting
empty table finds no one, and courtroom resolution against the resulting
empty table yields the four-underscore unresolved judge marker. -/
theorem c9_loaders_never_propagate (e : Str) :
    loadClientMappingFromSheetSmart (.error e) = []
    ∧ loadJudgeMapFromSheet (.error e) = []
    ∧ (∀ title : Str,
        matchClientFromTitle title (loadClientMappingFromSheetSmart (.error e)) = none)
    ∧ (∀ (title : Str) (info : CourtroomInfo),
        detectCookCountyCourtroom (loadJudgeMapFromSheet (.error e)) title = some info →
          info.judge = "____".toList) := by
  refine ⟨rfl, rfl, fun title => rfl, ?_⟩
  intro title info h
  unfold detectCookCountyCourtroom at h
  cases hfind : findCourtroomNumber title with
  | none => rw [hfind] at h; cases h
  | some num =>
    rw [hfind] at h
    have hlk : jsLookup (loadJudgeMapFromSheet (.error e)) num = none := rfl
    dsimp only at h
    rw [hlk] at h
    cases h
    rfl

/-- Witness for C9: with a failed sheet access, the title `room 1814`
resolves through the empty judge table to the unresolved marker, via the
theorem applied to the concrete detection result. -/
theorem c9_witness :
    (detectCookCountyCourtroom (loadJudgeMapFromSheet (.error ("boom".toList)))
      ("room 1814".toList)).map CourtroomInfo.judge = some ("____".toList) := by
  have hdet : detectCookCountyCourtroom (loadJudgeMapFromSheet (.error ("boom".toList)))
      ("room 1814".toList) = some ⟨"1814".toList, "____".toList⟩ := by decide
  have h := (c9_loaders_never_propagate ("boom".toList)).2.2.2 ("room 1814".toList)
    ⟨"1814".toList, "____".toList⟩ hdet
  rw [hdet]
  simp [h]


theorem gdLoop_total {α : Type} (p : Nat → α → ProcOutcome) (mf : Nat) (st : Bool) :
    ∀ (l : List α) (i : Nat) (acc : GDResults),
      (gdLoop p mf st l i acc).total = acc.total := by
  intro l
  induction l with
  | nil => intro i acc; rfl
  | cons item rest ih =>
    intro i acc
    simp only [gdLoop]
    cases hp : p i item with
    | value => rw [ih]
    | nullResult => rw [ih]
    | throwErr msg =>
      by_cases hf : containsSub msg filteredOutMarker = true
      · simp [hf, ih]
      · by_cases hstop : (st && decide (acc.failed + 1 > mf)) = true
        · simp [hf, hstop]
        · simp only [Bool.not_eq_true] at hstop
          simp [hf, hstop, ih]

theorem gdLoop_sum {α : Type} (p : Nat → α → ProcOutcome) (mf : Nat) (st : Bool) :
    ∀ (l : List α) (i : Nat) (acc : GDResults),
      acc.successful + acc.failed + acc.skipped = acc.results.length →
      (gdLoop p mf st l i acc).successful + (gdLoop p mf st l i acc).failed
          + (gdLoop p mf st l i acc).skipped
        = (gdLoop p mf st l i acc).results.length := by
  intro l
  induction l with
  | nil => intro i acc h; exact h
  | cons item rest ih =>
    intro i acc h
    simp only [gdLoop]
    cases hp : p i item with
    | value =>
      refine ih _ _ ?_
      simp only [List.length_append, List.length_cons, List.length_nil]
      omega
    | nullResult =>
      refine ih _ _ ?_
      simp only [List.length_append, List.length_cons, List.length_nil]
      omega
    | throwErr msg =>
      by_cases hf : containsSub msg filteredOutMarker = true
      · simp only [hf, if_true]
        refine ih _ _ ?_
        simp only [List.length_append, List.length_cons, List.length_nil]
        omega
      · by_cases hstop : (st && decide (acc.failed + 1 > mf)) = true
        · simp [hf, hstop, List.length_append]
          omega
        · simp only [Bool.not_eq_true] at hstop
          simp only [hf, Bool.false_eq_true, if_false, hstop]
          refine ih _ _ ?_
          simp only [List.length_append, List.length_cons, List.length_nil]
          omega

theorem gdLoop_len_le {α : Type} (p : Nat → α → ProcOutcome) (mf : Nat) (st : Bool) :
    ∀ (l : List α) (i : Nat) (acc : GDResults),
      (gdLoop p mf st l i acc).results.length ≤ acc.results.length + l.length := by
  intro l
  induction l with
  | nil => intro i acc; simp [gdLoop]
  | cons item rest ih =>
    intro i acc
    simp only [gdLoop, List.length_cons]
    cases hp : p i item with
    | value =>
      dsimp only
      have h2 := ih (i + 1)
        { acc with successful := acc.successful + 1,
                   results := acc.results ++ [(i, .success)] }
      simp only [List.length_append, List.length_cons, List.length_nil] at h2
      omega
    | nullResult =>
      dsimp only
      have h2 := ih (i + 1)
        { acc with skipped := acc.skipped + 1,
                   results := acc.results ++ [(i, .skipped)] }
      simp only [List.length_append, List.length_cons, List.length_nil] at h2
      omega
    | throwErr msg =>
      dsimp only
      by_cases hf : containsSub msg filteredOutMarker = true
      · simp only [hf, if_true]
        have h2 := ih (i + 1)
          { acc with skipped := acc.skipped + 1,
                     results := acc.results ++ [(i, .skipped)] }
        simp only [List.length_append, List.length_cons, List.length_nil] at h2
        omega
      · by_cases hstop : (st && decide (acc.failed + 1 > mf)) = true
        · simp [hf, hstop, List.length_append]
        · simp only [Bool.not_eq_true] at hstop
          simp only [hf, Bool.false_eq_true, if_false, hstop]
          have h2 := ih (i + 1)
            { acc with failed := acc.failed + 1, errors := acc.errors + 1,
                       results := acc.results ++ [(i, .failed)] }
          simp only [List.length_append, List.length_cons, List.length_nil] at h2
          omega

theorem gdLoop_len_nostop {α : Type} (p : Nat → α → ProcOutcome) (mf : Nat) :
    ∀ (l : List α) (i : Nat) (acc : GDResults),
      (gdLoop p mf false l i acc).results.length = acc.results.length + l.length := by
  intro l
  induction l with
  | nil => intro i acc; simp [gdLoop]
  | cons item rest ih =>
    intro i acc
    simp only [gdLoop, List.length_cons, Bool.false_and, Bool.false_eq_true, if_false]
    cases hp : p i item with
    | value =>
      dsimp only
      rw [ih]
      simp only [List.length_append, List.length_cons, List.length_nil]
      omega
    | nullResult =>
      dsimp only
      rw [ih]
      simp only [List.length_append, List.length_cons, List.length_nil]
      omega
    | throwErr msg =>
      dsimp only
      by_cases hf : containsSub msg filteredOutMarker = true
      · simp only [hf, if_true]
        rw [ih]
        simp only [List.length_append, List.length_cons, List.length_nil]
        omega
      · simp only [hf, Bool.false_eq_true, if_false]
        rw [ih]
        simp only [List.length_append, List.length_cons, List.length_nil]
        omega

/-- C1 counterexample: four items whose processor always throws a
non-filtered error, with default options (failure quota ceil(4·0.5) = 2 and
stop-on-excessive-failures enabled): the loop stops after the third
failure, the fourth item gets no outcome, so successful+failed+skipped
= 3 ≠ 4 = total and the per-item outcome list has length 3, not 4. -/
theorem c1_counterexample :
    ¬ ((processWithGracefulDegradation [0, 1, 2, 3]
          (fun _ _ => .throwErr ("boom".toList)) ⟨none, true⟩).successful
        + (processWithGracefulDegradation [0, 1, 2, 3]
          (fun _ _ => .throwErr ("boom".toList)) ⟨none, true⟩).failed
        + (processWithGracefulDegradation [0, 1, 2, 3]
          (fun _ _ => .throwErr ("boom".toList)) ⟨none, true⟩).skipped
        = (processWithGracefulDegradation [0, 1, 2, 3]
          (fun _ _ => .throwErr ("boom".toList)) ⟨none, true⟩).total
      ∧ (processWithGracefulDegradation [0, 1, 2, 3]
          (fun _ _ => .throwErr ("boom".toList)) ⟨none, true⟩).results.length
        = (processWithGracefulDegradation [0, 1, 2, 3]
          (fun _ _ => .throwErr ("boom".toList)) ⟨none, true⟩).total) := by
  decide

/-- C1 amended: the batch result always satisfies successful + failed +
skipped = length of the per-item outcome list, and that length is at most
total; both equal total whenever the orchestrator does not stop early — in
particular whenever stopOnExcessiveFailures is disabled — but under an
early quota stop the unattempted items receive no outcome and the counts
fall short of total. -/
theorem c1_batch_counts_amended {α : Type} (items : List α)
    (processor : Nat → α → ProcOutcome) (o : GDOptions) :
    (processWithGracefulDegradation items processor o).successful
        + (processWithGracefulDegradation items processor o).failed
        + (processWithGracefulDegradation items processor o).skipped
      = (processWithGracefulDegradation items processor o).results.length
    ∧ (processWithGracefulDegradation items processor o).results.length
      ≤ (processWithGracefulDegradation items processor o).total
    ∧ (o.stopOnExcessiveFailures = false →
        (processWithGracefulDegradation items processor o).successful
            + (processWithGracefulDegradation items processor o).failed
            + (processWithGracefulDegradation items processor o).skipped
          = (processWithGracefulDegradation items processor o).total
        ∧ (processWithGracefulDegradation items processor o).results.length
          = (processWithGracefulDegradation items processor o).total) := by
  have htotal : (processWithGracefulDegradation items processor o).total = items.length := by
    unfold processWithGracefulDegradation
    rw [gdLoop_total]
  have hsum : (processWithGracefulDegradation items processor o).successful
      + (processWithGracefulDegradation items processor o).failed
      + (processWithGracefulDegradation items processor o).skipped
      = (processWithGracefulDegradation items processor o).results.length :=
    gdLoop_sum processor (effectiveMaxFailures o items.length)
      o.stopOnExcessiveFailures items 0 ⟨items.length, 0, 0, 0, 0, []⟩ (by simp)
  have hle : (processWithGracefulDegradation items processor o).results.length
      ≤ items.length := by
    have h2 := gdLoop_len_le processor (effectiveMaxFailures o items.length)
      o.stopOnExcessiveFailures items 0 ⟨items.length, 0, 0, 0, 0, []⟩
    simpa using h2
  refine ⟨hsum, by rw [htotal]; exact hle, ?_⟩
  intro hst
  have hlen : (processWithGracefulDegradation items processor o).results.length
      = items.length := by
    unfold processWithGracefulDegradation
    rw [hst, gdLoop_len_nostop]
    simp
  exact ⟨by rw [hsum, hlen, htotal], by rw [hlen, htotal]⟩

/-- Witness for C1 at two items that both succeed, with
stopOnExcessiveFailures disabled: the counts and the outcome-list length
both equal the total of 2. -/
theorem c1_witness :
    (processWithGracefulDegradation [0, 1] (fun _ _ => .value) ⟨none, false⟩).successful
        + (processWithGracefulDegradation [0, 1] (fun _ _ => .value) ⟨none, false⟩).failed
        + (processWithGracefulDegradation [0, 1] (fun _ _ => .value) ⟨none, false⟩).skipped
      = (processWithGracefulDegradation [0, 1] (fun _ _ => .value) ⟨none, false⟩).total
    ∧ (processWithGracefulDegradation [0, 1] (fun _ _ => .value) ⟨none, false⟩).results.length
      = (processWithGracefulDegradation [0, 1] (fun _ _ => .value) ⟨none, false⟩).total :=
  (c1_batch_counts_amended [0, 1] (fun _ _ => .value) ⟨none, false⟩).2.2 rfl

theorem pickBest_mem : ∀ (ms : List (EventVocab × Str)) (b : EventVocab × Str),
    pickBest b ms ∈ b :: ms := by
  intro ms
  induction ms with
  | nil => intro b; simp [pickBest]
  | cons x xs ih =>
    intro b
    simp only [pickBest]
    rcases List.mem_cons.mp (ih (if x.2.length > b.2.length then x else b)) with h | h
    · rw [h]
      by_cases hx : x.2.length > b.2.length
      · simp [hx]
      · simp [hx]
    · right
      right
      exact h

theorem pickBest_le : ∀ (ms : List (EventVocab × Str)) (b : EventVocab × Str),
    ∀ x ∈ b :: ms, x.2.length ≤ (pickBest b ms).2.length := by
  intro ms
  induction ms with
  | nil =>
    intro b x hx
    rcases List.mem_cons.mp hx with h | h
    · rw [h]; simp [pickBest]
    · cases h
  | cons y ys ih =>
    intro b x hx
    simp only [pickBest]
    have hb : b.2.length ≤ (if y.2.length > b.2.length then y else b).2.length := by
      by_cases hy : y.2.length > b.2.length <;> simp [hy] <;> omega
    have hy2 : y.2.length ≤ (if y.2.length > b.2.length then y else b).2.length := by
      by_cases hy : y.2.length > b.2.length <;> simp [hy] <;> omega
    have hhead := ih (if y.2.length > b.2.length then y else b)
      (if y.2.length > b.2.length then y else b) (List.mem_cons_self _ _)
    rcases List.mem_cons.mp hx with h | h
    · rw [h]; exact le_trans hb hhead
    · rcases List.mem_cons.mp h with h2 | h2
      · rw [h2]; exact le_trans hy2 hhead
      · exact ih _ x (List.mem_cons_of_mem _ h2)

theorem mem_allKeywordMatches (lt : Str) :
    ∀ (events : List EventVocab) (e : EventVocab) (k : Str),
      (e, k) ∈ allKeywordMatches lt events
        ↔ e ∈ events ∧ k ∈ e.keywords ∧ containsSub lt k = true := by
  intro events
  induction events with
  | nil => intro e k; simp [allKeywordMatches]
  | cons e0 rest ih =>
    intro e k
    simp only [allKeywordMatches, List.mem_append, List.mem_map, List.mem_filter, ih,
      List.mem_cons]
    constructor
    · rintro (⟨k0, ⟨hk0, hc0⟩, heq⟩ | ⟨he, hk, hc⟩)
      · obtain ⟨he, hk⟩ := Prod.mk.injEq .. ▸ heq
        subst he
        subst hk
        exact ⟨Or.inl rfl, hk0, hc0⟩
      · exact ⟨Or.inr he, hk, hc⟩
    · rintro ⟨he | he, hk, hc⟩
      · subst he
        left
        exact ⟨k, ⟨hk, hc⟩, rfl⟩
      · right
        exact ⟨he, hk, hc⟩

theorem findUnifiedEventMatch_spec (title : Str) (events : List EventVocab)
    (e : EventVocab) (k : Str)
    (h : findUnifiedEventMatch title events = some (e, k)) :
    e ∈ events ∧ k ∈ e.keywords ∧ containsSub (lower title) k = true
    ∧ ∀ (e' : EventVocab) (k' : Str), e' ∈ events → k' ∈ e'.keywords →
        containsSub (lower title) k' = true → k'.length ≤ k.length := by
  unfold findUnifiedEventMatch at h
  cases hms : allKeywordMatches (lower title) events with
  | nil => rw [hms] at h; cases h
  | cons m ms =>
    rw [hms] at h
    simp only [pickLongest, Option.some.injEq] at h
    have hmem : (e, k) ∈ m :: ms := by rw [← h]; exact pickBest_mem ms m
    rw [← hms] at hmem
    obtain ⟨he, hk, hc⟩ := (mem_allKeywordMatches (lower title) events e k).mp hmem
    refine ⟨he, hk, hc, ?_⟩
    intro e' k' he' hk' hc'
    have hmem' : (e', k') ∈ allKeywordMatches (lower title) events :=
      (mem_allKeywordMatches (lower title) events e' k').mpr ⟨he', hk', hc'⟩
    rw [hms] at hmem'
    have := pickBest_le ms m (e', k') hmem'
    rw [h] at this
    exact this

theorem matchClientLoop_spec (lt : Str) :
    ∀ (m : List (Str × Str)) (r : ClientMatch), matchClientLoop lt m = some r →
      ∃ pre k v post, m = pre ++ (k, v) :: post
        ∧ r = { name := some k, uid := some v }
        ∧ containsSub lt k = true
        ∧ ∀ p ∈ pre, containsSub lt p.1 = false := by
  intro m
  induction m with
  | nil => intro r h; cases h
  | cons p rest ih =>
    intro r h
    obtain ⟨nm, uid⟩ := p
    by_cases hc : containsSub lt nm = true
    · refine ⟨[], nm, uid, rest, by simp, ?_, hc, by simp⟩
      simp only [matchClientLoop, hc, if_true, Option.some.injEq] at h
      exact h.symm
    · simp only [matchClientLoop, hc, if_false] at h
      obtain ⟨pre, k, v, post, hm, hr, hck, hpre⟩ := ih r h
      refine ⟨(nm, uid) :: pre, k, v, post, by rw [hm]; rfl, hr, hck, ?_⟩
      intro q hq
      rcases List.mem_cons.mp hq with hq | hq
      · rw [hq]
        simpa using hc
      · exact hpre q hq

/-- C2 counterexample: for the table with keys `a` (then) `ab` and the
text `xaby`, `matchClientFromTitle` returns the entry for `a` — the first
matching key in iteration order — even though the key `ab` also matches
and is strictly longer, so person matching does not follow
longest-matching-key-wins. -/
theorem c2_counterexample :
    matchClientFromTitle ("xaby".toList)
        [("a".toList, "1".toList), ("ab".toList, "2".toList)]
      = some { name := some ("a".toList), uid := some ("1".toList) }
    ∧ containsSub (lower ("xaby".toList)) ("ab".toList) = true
    ∧ ("a".toList).length < ("ab".toList).length := by
  refine ⟨by decide, by decide, by decide⟩

/-- C2 amended: only event-type matching (`findUnifiedEventMatch`) follows
the longest-matching-keyword-wins policy — whenever it returns a match,
the matched keyword occurs in the lowercased text and has maximal length
among all matching keywords, and it returns a match whenever any keyword
occurs (for keys a/ab and text xaby it returns the entry for ab).  Person
matching (`matchClientFromTitle`) instead returns the FIRST key in table
iteration order that occurs in the text, regardless of length (for keys
a/ab and text xaby it returns the entry for a). -/
theorem c2_matchers_amended :
    (∀ (title : Str) (events : List EventVocab) (e : EventVocab) (k : Str),
        findUnifiedEventMatch title events = some (e, k) →
          e ∈ events ∧ k ∈ e.keywords ∧ containsSub (lower title) k = true
          ∧ ∀ (e' : EventVocab) (k' : Str), e' ∈ events → k' ∈ e'.keywords →
              containsSub (lower title) k' = true → k'.length ≤ k.length)
    ∧ (∀ (title : Str) (events : List EventVocab),
        (∃ e ∈ events, ∃ k ∈ e.keywords, containsSub (lower title) k = true) →
          (findUnifiedEventMatch title events).isSome = true)
    ∧ (∀ (title : Str) (m : List (Str × Str)) (r : ClientMatch),
        matchClientFromTitle title m = some r →
          ∃ pre k v post, m = pre ++ (k, v) :: post
            ∧ r = { name := some k, uid := some v }
            ∧ containsSub (lower title) k = true
            ∧ ∀ p ∈ pre, containsSub (lower title) p.1 = false)
    ∧ findUnifiedEventMatch ("xaby".toList)
        [⟨"E1".toList, ["a".toList], "d1".toList, false⟩,
         ⟨"E2".toList, ["ab".toList], "d2".toList, false⟩]
      = some (⟨"E2".toList, ["ab".toList], "d2".toList, false⟩, "ab".toList)
    ∧ matchClientFromTitle ("xaby".toList)
        [("a".toList, "1".toList), ("ab".toList, "2".toList)]
      = some { name := some ("a".toList), uid := some ("1".toList) } := by
  refine ⟨findUnifiedEventMatch_spec, ?_, ?_, by decide, by decide⟩
  · rintro title events ⟨e, he, k, hk, hc⟩
    have hmem : (e, k) ∈ allKeywordMatches (lower title) events :=
      (mem_allKeywordMatches (lower title) events e k).mpr ⟨he, hk, hc⟩
    unfold findUnifiedEventMatch
    cases hms : allKeywordMatches (lower title) events with
    | nil => rw [hms] at hmem; cases hmem
    | cons m ms => simp [pickLongest]
  · intro title m r h
    exact matchClientLoop_spec (lower title) m r h

/-- Witness for C2: applying the amended theorem to the concrete a/ab
table at text xaby, where `findUnifiedEventMatch` concretely returns the
entry for ab, yields that ab is a keyword of the returned entry and
occurs in the text. -/
theorem c2_witness :
    ("ab".toList) ∈ (⟨"E2".toList, ["ab".toList], "d2".toList, false⟩ : EventVocab).keywords
    ∧ containsSub (lower ("xaby".toList)) ("ab".toList) = true := by
  have h := c2_matchers_amended.1 ("xaby".toList)
    [⟨"E1".toList, ["a".toList], "d1".toList, false⟩,
     ⟨"E2".toList, ["ab".toList], "d2".toList, false⟩]
    ⟨"E2".toList, ["ab".toList], "d2".toList, false⟩ ("ab".toList) (by decide)
  exact ⟨h.2.1, h.2.2.1⟩

theorem isPrefixOfL_mem : ∀ (p s : Str), isPrefixOfL p s = true → ∀ c ∈ p, c ∈ s := by
  intro p
  induction p with
  | nil => intro s h c hc; cases hc
  | cons a as ih =>
    intro s h c hc
    cases s with
    | nil => cases h
    | cons b bs =>
      simp only [isPrefixOfL, Bool.and_eq_true, beq_iff_eq] at h
      rcases List.mem_cons.mp hc with hc | hc
      · rw [hc, h.1]
        exact List.mem_cons_self _ _
      · exact List.mem_cons_of_mem _ (ih bs h.2 c hc)

theorem containsSub_mem : ∀ (s t : Str), containsSub s t = true → ∀ c ∈ t, c ∈ s := by
  intro s
  induction s with
  | nil =>
    intro t h c hc
    simp only [containsSub, List.isEmpty_iff] at h
    rw [h] at hc
    cases hc
  | cons h0 t0 ih =>
    intro t h c hc
    simp only [containsSub, Bool.or_eq_true] at h
    rcases h with h | h
    · exact isPrefixOfL_mem t (h0 :: t0) h c hc
    · exact List.mem_cons_of_mem _ (ih t h c hc)

theorem not_containsSub (s t : Str) (c : Char) (hc : c ∈ t) (hs : c ∉ s) :
    containsSub s t = false := by
  cases h : containsSub s t with
  | false => rfl
  | true => exact absurd (containsSub_mem s t h c hc) hs

theorem isPrefixOfL_self_append : ∀ (p v : Str), isPrefixOfL p (p ++ v) = true := by
  intro p
  induction p with
  | nil => intro v; rfl
  | cons a as ih => intro v; simp [isPrefixOfL, ih]

theorem replaceFirstGo_of_not_contains :
    ∀ (s pat repl pre : Str), containsSub s pat = false →
      replaceFirstGo pat repl pre s = s := by
  intro s
  induction s with
  | nil =>
    intro pat repl pre h
    simp only [containsSub] at h
    simp [replaceFirstGo, h]
  | cons h0 t0 ih =>
    intro pat repl pre hh
    simp only [containsSub, Bool.or_eq_false_iff] at hh
    simp only [replaceFirstGo, hh.1, Bool.false_eq_true, if_false]
    rw [ih pat repl (h0 :: pre) hh.2]

theorem replaceFirst_of_not_contains :
    ∀ (s pat repl : Str), containsSub s pat = false → replaceFirst pat repl s = s :=
  fun s pat repl h => replaceFirstGo_of_not_contains s pat repl [] h

theorem getSubstitution_cons (matched before after : Str) (c : Char) (rest : Str) :
    getSubstitution matched before after (c :: rest)
      = if c = dollarChar then
          match rest with
          | [] => [c]
          | d :: rest2 =>
            if d = dollarChar then c :: getSubstitution matched before after rest2
            else if d = '&' then matched ++ getSubstitution matched before after rest2
            else if d = backquoteChar then before ++ getSubstitution matched before after rest2
            else if d = quoteChar then after ++ getSubstitution matched before after rest2
            else c :: getSubstitution matched before after (d :: rest2)
        else c :: getSubstitution matched before after rest := by
  cases rest <;> rfl

theorem getSubstitution_one (matched before after : Str) (c : Char) :
    getSubstitution matched before after [c] = [c] := by
  by_cases h : c = dollarChar
  · rw [getSubstitution_cons, if_pos h]
  · rw [getSubstitution_cons, if_neg h]
    rfl

theorem getSubstitution_cons_cons (matched before after : Str) (c d : Char)
    (rest2 : Str) :
    getSubstitution matched before after (c :: d :: rest2)
      = if c = dollarChar then
          (if d = dollarChar then c :: getSubstitution matched before after rest2
           else if d = '&' then matched ++ getSubstitution matched before after rest2
           else if d = backquoteChar then before ++ getSubstitution matched before after rest2
           else if d = quoteChar then after ++ getSubstitution matched before after rest2
           else c :: getSubstitution matched before after (d :: rest2))
        else c :: getSubstitution matched before after (d :: rest2) := by
  by_cases h : c = dollarChar
  · rw [getSubstitution_cons, if_pos h]
  · rw [getSubstitution_cons, if_neg h]

theorem getSubstitution_no_dollar :
    ∀ (repl matched before after : Str), dollarChar ∉ repl →
      getSubstitution matched before after repl = repl := by
  intro repl
  induction repl with
  | nil => intro matched before after _; rfl
  | cons c rest ih =>
    intro matched before after h
    have hc : ¬(c = dollarChar) := fun he => h (he ▸ List.mem_cons_self _ _)
    rw [getSubstitution_cons, if_neg hc,
      ih matched before after (fun hm => h (List.mem_cons_of_mem _ hm))]

theorem replaceFirstGo_first_occ (c : Char) :
    ∀ (u pat repl v pre : Str), pat.head? = some c → c ∉ u → dollarChar ∉ repl →
      replaceFirstGo pat repl pre (u ++ pat ++ v) = u ++ repl ++ v := by
  intro u
  induction u with
  | nil =>
    intro pat repl v pre hp _ hd
    cases pat with
    | nil => cases hp
    | cons p0 pt =>
      have h1 : ([] : Str) ++ (p0 :: pt) ++ v = p0 :: (pt ++ v) := rfl
      have h2 : ([] : Str) ++ repl ++ v = repl ++ v := rfl
      rw [h1, h2]
      have h3 : replaceFirstGo (p0 :: pt) repl pre (p0 :: (pt ++ v))
          = if isPrefixOfL (p0 :: pt) (p0 :: (pt ++ v)) then
              getSubstitution (p0 :: pt) pre.reverse
                  (List.drop (p0 :: pt).length (p0 :: (pt ++ v))) repl
                ++ List.drop (p0 :: pt).length (p0 :: (pt ++ v))
            else p0 :: replaceFirstGo (p0 :: pt) repl (p0 :: pre) (pt ++ v) := rfl
      rw [h3]
      have h4 : p0 :: (pt ++ v) = (p0 :: pt) ++ v := rfl
      rw [h4, isPrefixOfL_self_append]
      simp [List.drop_left, getSubstitution_no_dollar _ _ _ _ hd]
  | cons c0 u' ih =>
    intro pat repl v pre hp hu hd
    have hc0 : c0 ≠ c := fun he => hu (he ▸ List.mem_cons_self _ _)
    cases pat with
    | nil => cases hp
    | cons p0 pt =>
      have hp0 : p0 = c := Option.some.inj hp
      have h1 : (c0 :: u') ++ (p0 :: pt) ++ v = c0 :: (u' ++ (p0 :: pt) ++ v) := rfl
      have h2 : (c0 :: u') ++ repl ++ v = c0 :: (u' ++ repl ++ v) := rfl
      rw [h1, h2]
      have h3 : replaceFirstGo (p0 :: pt) repl pre (c0 :: (u' ++ (p0 :: pt) ++ v))
          = if isPrefixOfL (p0 :: pt) (c0 :: (u' ++ (p0 :: pt) ++ v)) then
              getSubstitution (p0 :: pt) pre.reverse
                  (List.drop (p0 :: pt).length (c0 :: (u' ++ (p0 :: pt) ++ v))) repl
                ++ List.drop (p0 :: pt).length (c0 :: (u' ++ (p0 :: pt) ++ v))
            else c0 :: replaceFirstGo (p0 :: pt) repl (c0 :: pre) (u' ++ (p0 :: pt) ++ v) := by
        rfl
      rw [h3]
      have hpre : isPrefixOfL (p0 :: pt) (c0 :: (u' ++ (p0 :: pt) ++ v)) = false := by
        simp only [isPrefixOfL, Bool.and_eq_false_iff, beq_eq_false_iff_ne, ne_eq]
        left
        rw [hp0]
        exact fun he => hc0 he.symm
      rw [hpre]
      simp only [Bool.false_eq_true, if_false, List.cons.injEq, true_and]
      exact ih (p0 :: pt) repl v (c0 :: pre) hp
        (fun hm => hu (List.mem_cons_of_mem _ hm)) hd

theorem replaceFirst_first_occ (c : Char) :
    ∀ (u pat repl v : Str), pat.head? = some c → c ∉ u → dollarChar ∉ repl →
      replaceFirst pat repl (u ++ pat ++ v) = u ++ repl ++ v :=
  fun u pat repl v hp hu hd => replaceFirstGo_first_occ c u pat repl v [] hp hu hd

theorem mem_getSubstitution (matched before after : Str) (ch : Char) :
    ∀ (n : Nat) (repl : Str), repl.length ≤ n →
      ch ∈ getSubstitution matched before after repl →
        ch ∈ repl ∨ ch ∈ matched ∨ ch ∈ before ∨ ch ∈ after := by
  intro n
  induction n with
  | zero =>
    intro repl hlen hm
    cases repl with
    | nil => simp [getSubstitution] at hm
    | cons c0 rest => simp at hlen
  | succ n ih =>
    intro repl hlen hm
    cases repl with
    | nil => simp [getSubstitution] at hm
    | cons c0 rest =>
      simp only [List.length_cons, Nat.add_le_add_iff_right] at hlen
      cases rest with
      | nil =>
        rw [getSubstitution_one] at hm
        rcases List.mem_cons.mp hm with hm | hm
        · exact Or.inl (hm ▸ List.mem_cons_self _ _)
        · cases hm
      | cons d rest2 =>
        have hlen2 : rest2.length ≤ n := by
          simp only [List.length_cons] at hlen
          omega
        have hlen3 : (d :: rest2).length ≤ n := hlen
        rw [getSubstitution_cons_cons] at hm
        by_cases h0 : c0 = dollarChar
        · rw [if_pos h0] at hm
          by_cases hd : d = dollarChar
          · rw [if_pos hd] at hm
            rcases List.mem_cons.mp hm with hm | hm
            · exact Or.inl (hm ▸ List.mem_cons_self _ _)
            · rcases ih rest2 hlen2 hm with h | h | h | h
              · exact Or.inl (List.mem_cons_of_mem _ (List.mem_cons_of_mem _ h))
              · exact Or.inr (Or.inl h)
              · exact Or.inr (Or.inr (Or.inl h))
              · exact Or.inr (Or.inr (Or.inr h))
          · rw [if_neg hd] at hm
            by_cases ha : d = '&'
            · rw [if_pos ha] at hm
              rcases List.mem_append.mp hm with hm | hm
              · exact Or.inr (Or.inl hm)
              · rcases ih rest2 hlen2 hm with h | h | h | h
                · exact Or.inl (List.mem_cons_of_mem _ (List.mem_cons_of_mem _ h))
                · exact Or.inr (Or.inl h)
                · exact Or.inr (Or.inr (Or.inl h))
                · exact Or.inr (Or.inr (Or.inr h))
            · rw [if_neg ha] at hm
              by_cases hb : d = backquoteChar
              · rw [if_pos hb] at hm
                rcases List.mem_append.mp hm with hm | hm
                · exact Or.inr (Or.inr (Or.inl hm))
                · rcases ih rest2 hlen2 hm with h | h | h | h
                  · exact Or.inl (List.mem_cons_of_mem _ (List.mem_cons_of_mem _ h))
                  · exact Or.inr (Or.inl h)
                  · exact Or.inr (Or.inr (Or.inl h))
                  · exact Or.inr (Or.inr (Or.inr h))
              · rw [if_neg hb] at hm
                by_cases hq : d = quoteChar
                · rw [if_pos hq] at hm
                  rcases List.mem_append.mp hm with hm | hm
                  · exact Or.inr (Or.inr (Or.inr hm))
                  · rcases ih rest2 hlen2 hm with h | h | h | h
                    · exact Or.inl (List.mem_cons_of_mem _ (List.mem_cons_of_mem _ h))
                    · exact Or.inr (Or.inl h)
                    · exact Or.inr (Or.inr (Or.inl h))
                    · exact Or.inr (Or.inr (Or.inr h))
                · rw [if_neg hq] at hm
                  rcases List.mem_cons.mp hm with hm | hm
                  · exact Or.inl (hm ▸ List.mem_cons_self _ _)
                  · rcases ih (d :: rest2) hlen3 hm with h | h | h | h
                    · exact Or.inl (List.mem_cons_of_mem _ h)
                    · exact Or.inr (Or.inl h)
                    · exact Or.inr (Or.inr (Or.inl h))
                    · exact Or.inr (Or.inr (Or.inr h))
        · rw [if_neg h0] at hm
          rcases List.mem_cons.mp hm with hm | hm
          · exact Or.inl (hm ▸ List.mem_cons_self _ _)
          · rcases ih (d :: rest2) hlen3 hm with h | h | h | h
            · exact Or.inl (List.mem_cons_of_mem _ h)
            · exact Or.inr (Or.inl h)
            · exact Or.inr (Or.inr (Or.inl h))
            · exact Or.inr (Or.inr (Or.inr h))

theorem mem_replaceFirstGo (pat repl : Str) (ch : Char) :
    ∀ (s pre : Str), ch ∈ replaceFirstGo pat repl pre s →
      ch ∈ s ∨ ch ∈ repl ∨ ch ∈ pat ∨ ch ∈ pre := by
  intro s
  induction s with
  | nil =>
    intro pre h
    simp only [replaceFirstGo] at h
    by_cases hp : pat.isEmpty = true
    · rw [if_pos hp] at h
      rcases mem_getSubstitution pat pre.reverse [] ch repl.length repl le_rfl h
        with h2 | h2 | h2 | h2
      · exact Or.inr (Or.inl h2)
      · exact Or.inr (Or.inr (Or.inl h2))
      · exact Or.inr (Or.inr (Or.inr (List.mem_reverse.mp h2)))
      · cases h2
    · rw [if_neg hp] at h
      cases h
  | cons h0 t0 ih =>
    intro pre h
    simp only [replaceFirstGo] at h
    by_cases hpre : isPrefixOfL pat (h0 :: t0) = true
    · rw [if_pos hpre] at h
      rcases List.mem_append.mp h with h2 | h2
      · rcases mem_getSubstitution pat pre.reverse
            (List.drop pat.length (h0 :: t0)) ch repl.length repl le_rfl h2
          with h3 | h3 | h3 | h3
        · exact Or.inr (Or.inl h3)
        · exact Or.inr (Or.inr (Or.inl h3))
        · exact Or.inr (Or.inr (Or.inr (List.mem_reverse.mp h3)))
        · exact Or.inl (List.mem_of_mem_drop h3)
      · exact Or.inl (List.mem_of_mem_drop h2)
    · rw [if_neg hpre] at h
      rcases List.mem_cons.mp h with h2 | h2
      · exact Or.inl (h2 ▸ List.mem_cons_self _ _)
      · rcases ih (h0 :: pre) h2 with h3 | h3 | h3 | h3
        · exact Or.inl (List.mem_cons_of_mem _ h3)
        · exact Or.inr (Or.inl h3)
        · exact Or.inr (Or.inr (Or.inl h3))
        · rcases List.mem_cons.mp h3 with h4 | h4
          · exact Or.inl (h4 ▸ List.mem_cons_self _ _)
          · exact Or.inr (Or.inr (Or.inr h4))

theorem mem_replaceFirst (pat repl s : Str) (ch : Char)
    (h : ch ∈ replaceFirst pat repl s) : ch ∈ s ∨ ch ∈ repl ∨ ch ∈ pat := by
  rcases mem_replaceFirstGo pat repl ch s [] h with h2 | h2 | h2 | h2
  · exact Or.inl h2
  · exact Or.inr (Or.inl h2)
  · exact Or.inr (Or.inr h2)
  · cases h2

theorem r1Of_avoid (ch : Char) (hund : ch ∉ ("undefined".toList))
    (hcl : ch ∉ ("[Client]".toList)) (cm : Option ClientMatch)
    (hcm : cmFieldsAvoid ch cm) :
    ch ∉ r1Of cm := by
  cases cm with
  | none => exact hcl
  | some m =>
    obtain ⟨hf, _, hmn⟩ := hcm
    show ch ∉ jsStr (jsOrOpt m.firstName m.matchedName)
    cases hfn : m.firstName with
    | some s =>
      simp only [jsOrOpt]
      by_cases hs : s.isEmpty = true
      · rw [if_pos hs]
        cases hmn2 : m.matchedName with
        | some s2 => exact hmn s2 hmn2
        | none => exact hund
      · rw [if_neg hs]
        exact hf s hfn
    | none =>
      simp only [jsOrOpt]
      cases hmn2 : m.matchedName with
      | some s2 => exact hmn s2 hmn2
      | none => exact hund

theorem r2Of_avoid (ch : Char) (cm : Option ClientMatch)
    (hcm : cmFieldsAvoid ch cm) :
    ch ∉ r2Of cm := by
  cases cm with
  | none => simp [r2Of]
  | some m =>
    obtain ⟨_, hl, _⟩ := hcm
    show ch ∉ m.lastName.getD []
    cases hln : m.lastName with
    | some s => exact hl s hln
    | none => simp

theorem detect_judge_avoid (ch : Char) (h4 : ch ∉ ("____".toList))
    (hJ : ch ∉ ("Judge ".toList)) (jm : List (Str × Str)) (title : Str)
    (info : CourtroomInfo) (hjm : ∀ p ∈ jm, ch ∉ p.2)
    (h : detectCookCountyCourtroom jm title = some info) :
    ch ∉ info.judge := by
  unfold detectCookCountyCourtroom at h
  cases hfind : findCourtroomNumber title with
  | none => rw [hfind] at h; cases h
  | some num =>
    rw [hfind] at h
    dsimp only at h
    cases hlk : jsLookup jm num with
    | none =>
      rw [hlk] at h
      cases h
      exact h4
    | some jn =>
      rw [hlk] at h
      cases h
      intro hmem
      rcases mem_replaceFirst ("Judge ".toList) [] jn ch hmem with h2 | h2 | h2
      · obtain ⟨p, hfp, hp2⟩ : ∃ p, List.find? (fun p => p.1 == num) jm = some p ∧ p.2 = jn := by
          unfold jsLookup at hlk
          cases hfp : List.find? (fun p => p.1 == num) jm with
          | none => rw [hfp] at hlk; cases hlk
          | some p =>
            rw [hfp] at hlk
            exact ⟨p, rfl, Option.some.inj hlk⟩
        exact hjm p (List.mem_of_find?_eq_some hfp) (hp2 ▸ h2)
      · cases h2
      · exact hJ h2

theorem judgeTextOf_avoid (ch : Char) (h4 : ch ∉ ("____".toList))
    (hJ : ch ∉ ("Judge ".toList)) (jm : List (Str × Str)) (title : Str)
    (hjm : ∀ p ∈ jm, ch ∉ p.2) :
    ch ∉ judgeTextOf jm title := by
  unfold judgeTextOf
  cases hd : detectCookCountyCourtroom jm title with
  | none => exact h4
  | some info => exact detect_judge_avoid ch h4 hJ jm title info hjm hd

theorem gubd_eq_noncourt (jm : List (Str × Str)) (cm : Option ClientMatch)
    (title cat d0 : Str) (kws : List Str) :
    generateUnifiedBillingDescription jm ⟨cat, kws, d0, false⟩ cm title
      = replaceFirst ("\x7bClient Last Name\x7d".toList) (r2Of cm)
          (replaceFirst ("\x7bClient First Name\x7d".toList) (r1Of cm) d0) := by
  cases cm <;> rfl

theorem gubd_eq_court (jm : List (Str × Str)) (cm : Option ClientMatch)
    (title cat d0 : Str) (kws : List Str) :
    generateUnifiedBillingDescription jm ⟨cat, kws, d0, true⟩ cm title
      = replaceFirst ("\x7bJudge Last Name\x7d".toList) (judgeTextOf jm title)
          (replaceFirst ("\x7bClient Last Name\x7d".toList) (r2Of cm)
            (replaceFirst ("\x7bClient First Name\x7d".toList) (r1Of cm) d0)) := by
  cases cm <;> rfl

theorem noBrace_subst_noncourt (u1 v2 r1 r2 : Str)
    (hu1 : braceChar ∉ u1) (hv2 : braceChar ∉ v2)
    (hr1 : braceChar ∉ r1) (hr2 : braceChar ∉ r2)
    (hd1 : dollarChar ∉ r1) (hd2 : dollarChar ∉ r2) :
    braceChar ∉ replaceFirst ("\x7bClient Last Name\x7d".toList) r2
      (replaceFirst ("\x7bClient First Name\x7d".toList) r1
        (u1 ++ ("\x7bClient First Name\x7d".toList)
          ++ (' ' :: (("\x7bClient Last Name\x7d".toList) ++ v2)))) := by
  have hsp : braceChar ≠ ' ' := by decide
  rw [replaceFirst_first_occ braceChar u1 ("\x7bClient First Name\x7d".toList) r1
    (' ' :: (("\x7bClient Last Name\x7d".toList) ++ v2)) (by decide) hu1 hd1]
  have h2 : u1 ++ r1 ++ (' ' :: (("\x7bClient Last Name\x7d".toList) ++ v2))
      = (u1 ++ r1 ++ [' ']) ++ ("\x7bClient Last Name\x7d".toList) ++ v2 := by
    simp [List.append_assoc]
  rw [h2, replaceFirst_first_occ braceChar (u1 ++ r1 ++ [' '])
    ("\x7bClient Last Name\x7d".toList) r2 v2 (by decide) (by
      intro hmem
      simp only [List.mem_append, List.mem_singleton] at hmem
      tauto) hd2]
  intro hmem
  simp only [List.mem_append, List.mem_singleton] at hmem
  tauto

theorem noBrace_subst_court (u w r1 r2 jt : Str)
    (hu : braceChar ∉ u) (hw : braceChar ∉ w) (hjt : braceChar ∉ jt)
    (hdjt : dollarChar ∉ jt)
    (hnoCFN : containsSub (u ++ ("\x7bJudge Last Name\x7d".toList) ++ w)
        ("\x7bClient First Name\x7d".toList) = false)
    (hnoCLN : containsSub (u ++ ("\x7bJudge Last Name\x7d".toList) ++ w)
        ("\x7bClient Last Name\x7d".toList) = false) :
    braceChar ∉ replaceFirst ("\x7bJudge Last Name\x7d".toList) jt
      (replaceFirst ("\x7bClient Last Name\x7d".toList) r2
        (replaceFirst ("\x7bClient First Name\x7d".toList) r1
          (u ++ ("\x7bJudge Last Name\x7d".toList) ++ w))) := by
  rw [replaceFirst_of_not_contains _ _ _ hnoCFN,
    replaceFirst_of_not_contains _ _ _ hnoCLN,
    replaceFirst_first_occ braceChar u ("\x7bJudge Last Name\x7d".toList) jt w
      (by decide) hu hdjt]
  intro hmem
  simp only [List.mem_append] at hmem
  tauto

/-- C7 counterexample: JS string `replace` only replaces the first
occurrence, so a vocabulary template in which the client-first-name
placeholder occurs twice leaves the second occurrence verbatim in the
rendered billing description. -/
theorem c7_counterexample :
    containsSub
      (generateUnifiedBillingDescription []
        ⟨"X".toList, ["x".toList],
          "\x7bClient First Name\x7d and \x7bClient First Name\x7d".toList, false⟩
        none ("x".toList))
      ("\x7bClient First Name\x7d".toList) = true := by
  decide

set_option maxRecDepth 8000

/-- C7 amended: only the FIRST occurrence of each client placeholder is
substituted, and the judge placeholder only in court-event templates; for
the entries of the built-in fallback vocabulary — where each placeholder
occurs exactly once and the judge placeholder only in court templates —
the rendered description contains no placeholder token, provided the
substituted person names and judge names contain no opening brace and no
dollar character (a dollar would trigger ECMAScript replacement-string
substitution, which can re-insert the matched placeholder). -/
theorem c7_placeholders_amended (e : EventVocab) (he : e ∈ getUnifiedEventFallback)
    (cm : Option ClientMatch) (jm : List (Str × Str)) (title : Str)
    (hcmB : cmFieldsAvoid braceChar cm) (hcmD : cmFieldsAvoid dollarChar cm)
    (hjm : ∀ p ∈ jm, braceChar ∉ p.2 ∧ dollarChar ∉ p.2) :
    containsSub (generateUnifiedBillingDescription jm e cm title)
        ("\x7bClient First Name\x7d".toList) = false
    ∧ containsSub (generateUnifiedBillingDescription jm e cm title)
        ("\x7bClient Last Name\x7d".toList) = false
    ∧ containsSub (generateUnifiedBillingDescription jm e cm title)
        ("\x7bJudge Last Name\x7d".toList) = false := by
  have hr1 := r1Of_avoid braceChar (by decide) (by decide) cm hcmB
  have hr2 := r2Of_avoid braceChar cm hcmB
  have hjt := judgeTextOf_avoid braceChar (by decide) (by decide) jm title
    (fun p hp => (hjm p hp).1)
  have hd1 := r1Of_avoid dollarChar (by decide) (by decide) cm hcmD
  have hd2 := r2Of_avoid dollarChar cm hcmD
  have hdjt := judgeTextOf_avoid dollarChar (by decide) (by decide) jm title
    (fun p hp => (hjm p hp).2)
  have hnb : braceChar ∉ generateUnifiedBillingDescription jm e cm title := by
    simp only [getUnifiedEventFallback, List.mem_cons, List.not_mem_nil, or_false] at he
    rcases he with rfl | rfl | rfl | rfl | rfl | rfl | rfl | rfl
    · rw [gubd_eq_noncourt,
        show ("Telephone conference with \x7bClient First Name\x7d \x7bClient Last Name\x7d".toList)
          = ("Telephone conference with ".toList) ++ ("\x7bClient First Name\x7d".toList)
            ++ (' ' :: (("\x7bClient Last Name\x7d".toList) ++ [])) from by decide]
      exact noBrace_subst_noncourt _ _ _ _ (by decide) (by decide) hr1 hr2 hd1 hd2
    · rw [gubd_eq_noncourt,
        show ("Video conference with \x7bClient First Name\x7d \x7bClient Last Name\x7d".toList)
          = ("Video conference with ".toList) ++ ("\x7bClient First Name\x7d".toList)
            ++ (' ' :: (("\x7bClient Last Name\x7d".toList) ++ [])) from by decide]
      exact noBrace_subst_noncourt _ _ _ _ (by decide) (by decide) hr1 hr2 hd1 hd2
    · rw [gubd_eq_noncourt,
        show ("Office meeting with \x7bClient First Name\x7d \x7bClient Last Name\x7d".toList)
          = ("Office meeting with ".toList) ++ ("\x7bClient First Name\x7d".toList)
            ++ (' ' :: (("\x7bClient Last Name\x7d".toList) ++ [])) from by decide]
      exact noBrace_subst_noncourt _ _ _ _ (by decide) (by decide) hr1 hr2 hd1 hd2
    · rw [gubd_eq_court,
        show ("Appeared before Judge \x7bJudge Last Name\x7d on initial presentation of Motion".toList)
          = ("Appeared before Judge ".toList) ++ ("\x7bJudge Last Name\x7d".toList)
            ++ (" on initial presentation of Motion".toList) from by decide]
      exact noBrace_subst_court _ _ _ _ _ (by decide) (by decide) hjt hdjt (by decide) (by decide)
    · rw [gubd_eq_court,
        show ("Appeared before Judge \x7bJudge Last Name\x7d for hearing on Motion".toList)
          = ("Appeared before Judge ".toList) ++ ("\x7bJudge Last Name\x7d".toList)
            ++ (" for hearing on Motion".toList) from by decide]
      exact noBrace_subst_court _ _ _ _ _ (by decide) (by decide) hjt hdjt (by decide) (by decide)
    · rw [gubd_eq_court,
        show ("Appeared before Judge \x7bJudge Last Name\x7d to open Estate, have heirship determined, and have representative appointed".toList)
          = ("Appeared before Judge ".toList) ++ ("\x7bJudge Last Name\x7d".toList)
            ++ (" to open Estate, have heirship determined, and have representative appointed".toList) from by decide]
      exact noBrace_subst_court _ _ _ _ _ (by decide) (by decide) hjt hdjt (by decide) (by decide)
    · rw [gubd_eq_court,
        show ("Appeared before Judge \x7bJudge Last Name\x7d to present Final Report and Receipts and Approvals from interested parties and to request that the representative be discharged and estate closed.".toList)
          = ("Appeared before Judge ".toList) ++ ("\x7bJudge Last Name\x7d".toList)
            ++ (" to present Final Report and Receipts and Approvals from interested parties and to request that the representative be discharged and estate closed.".toList) from by decide]
      exact noBrace_subst_court _ _ _ _ _ (by decide) (by decide) hjt hdjt (by decide) (by decide)
    · rw [gubd_eq_court,
        show ("Appeared before Judge \x7bJudge Last Name\x7d to report on status of Estate Administration".toList)
          = ("Appeared before Judge ".toList) ++ ("\x7bJudge Last Name\x7d".toList)
            ++ (" to report on status of Estate Administration".toList) from by decide]
      exact noBrace_subst_court _ _ _ _ _ (by decide) (by decide) hjt hdjt (by decide) (by decide)
  exact ⟨not_containsSub _ _ braceChar (by decide) hnb,
    not_containsSub _ _ braceChar (by decide) hnb,
    not_containsSub _ _ braceChar (by decide) hnb⟩

/-- Witness for C7 at the first fallback vocabulary entry with no person
match, an empty judge table and the title x: no placeholder token survives
in the rendered description. -/
theorem c7_witness :
    containsSub (generateUnifiedBillingDescription []
        ⟨"Telephone Conference".toList,
          ["telephone call".toList, "tc".toList, "cc".toList, "conference call".toList, "call".toList],
          "Telephone conference with \x7bClient First Name\x7d \x7bClient Last Name\x7d".toList,
          false⟩
        none ("x".toList))
      ("\x7bClient First Name\x7d".toList) = false :=
  (c7_placeholders_amended
    ⟨"Telephone Conference".toList,
      ["telephone call".toList, "tc".toList, "cc".toList, "conference call".toList, "call".toList],
      "Telephone conference with \x7bClient First Name\x7d \x7bClient Last Name\x7d".toList,
      false⟩
    (by decide) none [] ("x".toList) trivial trivial (by simp)).1

/-- C6: evaluation at the failing input.  The pipeline's own person
matcher returns `{name, uid}`, but the summary fallback reads
`firstName`/`matchedName`/`lastName`, so with a matched person and no
vocabulary match the summary renders as `Meeting with undefined ` —
not `Meeting with` followed by the person's name.  The no-person half of
the claim does hold: `Team lunch` with no matches passes through
unchanged. -/
theorem c6_summary_fallback_eval :
    matchClientFromTitle ("Brown lunch".toList) [("brown".toList, "7".toList)]
      = some { name := some ("brown".toList), uid := some ("7".toList) }
    ∧ generateUnifiedSummary ⟨.ok [], [], false⟩ ("Brown lunch".toList)
        (matchClientFromTitle ("Brown lunch".toList) [("brown".toList, "7".toList)])
      = "Meeting with undefined ".toList
    ∧ matchClientFromTitle ("Team lunch".toList) [("brown".toList, "7".toList)] = none
    ∧ generateUnifiedSummary ⟨.ok [], [], false⟩ ("Team lunch".toList) none
      = "Team lunch".toList := by
  refine ⟨by decide, by decide, by decide, by decide⟩

/-- C10 counterexample: a fault while loading the vocabulary does NOT make
`generateUnifiedSummary` return the claim's fallback string (the original
title here, since no person matched) — the loader absorbs the fault by
substituting the built-in fallback vocabulary, and the summary is a
normally rendered description. -/
theorem c10_counterexample :
    generateUnifiedSummary ⟨.error ("sheet down".toList), [], false⟩ ("Zoom x".toList) none
      = "Video conference with [Client] ".toList
    ∧ generateUnifiedSummary ⟨.error ("sheet down".toList), [], false⟩ ("Zoom x".toList) none
      ≠ ("Zoom x".toList) := by
  refine ⟨by decide, by decide⟩

/-- C10 amended: `generateUnifiedSummary` is total — it returns the try
block's string when that block completes, and the fallback string when
the block throws; a vocabulary-load fault never reaches it, being caught
inside the loader which substitutes the built-in fallback vocabulary; the
fallback string is the original title when no person matched, and
`Meeting with` plus the person's first and last name when the match
carries them. -/
theorem c10_summary_total_amended (env : SummaryEnv) (title : Str)
    (cm : Option ClientMatch) :
    (∀ err, generateUnifiedSummaryTry env title cm = .error err →
        generateUnifiedSummary env title cm = fallbackSummary title cm)
    ∧ (∀ s, generateUnifiedSummaryTry env title cm = .ok s →
        generateUnifiedSummary env title cm = s)
    ∧ (∀ e, loadUnifiedEventVocabulary (.error e) = getUnifiedEventFallback)
    ∧ fallbackSummary title none = title
    ∧ (∀ (m : ClientMatch) (fn ln : Str),
        m.firstName = some fn → fn ≠ [] → m.lastName = some ln →
        fallbackSummary title (some m)
          = "Meeting with ".toList ++ fn ++ [' '] ++ ln) := by
  refine ⟨?_, ?_, fun e => rfl, rfl, ?_⟩
  · intro err herr
    unfold generateUnifiedSummary
    rw [herr]
  · intro s hs
    unfold generateUnifiedSummary
    rw [hs]
  · intro m fn ln hfn hfne hln
    show "Meeting with ".toList ++ jsStr (jsOrOpt m.firstName m.matchedName)
        ++ [' '] ++ m.lastName.getD [] = _
    rw [hfn, hln]
    cases fn with
    | nil => exact absurd rfl hfne
    | cons c t => simp [jsOrOpt, jsStr]

/-- Witness for C10: with the regex construction of the title-stripping
step faulting (strip fault set) and a match carrying a matched name, the
try block throws and the summary equals the fallback string. -/
theorem c10_witness :
    generateUnifiedSummary ⟨.ok [], [], true⟩ ("Brown - 1814 Motion".toList)
        (some { matchedName := some ("brown".toList) })
      = fallbackSummary ("Brown - 1814 Motion".toList)
          (some { matchedName := some ("brown".toList) }) :=
  (c10_summary_total_amended ⟨.ok [], [], true⟩ ("Brown - 1814 Motion".toList)
    (some { matchedName := some ("brown".toList) })).1 () rfl
